import Mathlib

/-!
Verification of the window-manager abstraction layer of `workstyle`
(`src/window_manager.rs`), as a shallow embedding in Lean 4.

The embedding models:
- the `swayipc` tree types (`Node`, `NodeType`, window properties) and the
  `NodeExt` trait methods (`is_workspace`, `is_window`, `windows_in_node`,
  `workspaces_in_node`);
- the `Window` value and its `from_node` / `exists` / `matches` operations;
- `SwayOrI3::connect` / `get_windows_in_each_workspace` / `wait_for_event`,
  with the IPC calls (`Connection::new`, `get_tree`, `events.next()`)
  passed in as explicit arguments of `Except` / `Option` type;
- `Hyprland::get_windows_in_each_workspace` / `wait_for_event`, with the
  `Clients::get()` / `Workspaces::get()` snapshots passed in as lists.

`BTreeMap<String, _>` is modelled as a sorted association list with
last-insert-wins semantics (`map_insert` keeps keys sorted and replaces an
equal key, matching `BTreeMap::insert`; iteration order of the model list is
therefore the `BTreeMap` iteration order).  Rust machine integers (`i16`
window coordinates, `i32` workspace ids) are modelled as `Int`: the code
performs no arithmetic on them, only comparison and formatting, so no
overflow behaviour is lost.  Rust's `str::to_lowercase` is modelled at the
ASCII level by `Char.toLower` (the lowercase conversion per character),
which is the fragment the icon-matching behaviour exercises.
-/

/-! ### Generic model of `BTreeMap<String, α>` -/

/-- Rust `BTreeMap::insert`: insert into a key-sorted association list,
replacing the value when the key is already present. -/
def map_insert {α : Type} (k : String) (v : α) : List (String × α) → List (String × α)
  | [] => [(k, v)]
  | (k', v') :: rest =>
    if k < k' then (k, v) :: (k', v') :: rest
    else if k = k' then (k, v) :: rest
    else (k', v') :: map_insert k v rest

/-- Rust `BTreeMap::get`: first entry with the given key. -/
def map_lookup {α : Type} (k : String) : List (String × α) → Option α
  | [] => none
  | (k', v) :: rest => if k = k' then some v else map_lookup k rest

/-- The `for (k, v) in sub { res.insert(k, v) }` loop of
`workspaces_in_node`, and the `collect::<BTreeMap<_,_>>()` of the Hyprland
backend: fold `map_insert` over a list of entries. -/
def insert_all {α : Type} (acc : List (String × α)) (entries : List (String × α)) :
    List (String × α) :=
  entries.foldl (fun m kv => map_insert kv.1 kv.2 m) acc

/-! ### The swayipc tree (`swayipc::Node`) -/

/-- Rust `swayipc::NodeType` (the variants used by the code, plus the others as
inhabitants so that the `matches!` patterns keep their meaning). -/
inductive NodeType
  | root
  | output
  | workspace
  | con
  | floatingCon
  | dockarea
deriving DecidableEq, Repr

/-- The `window_properties` sub-struct: only the `class` field is read. -/
structure WindowProperties where
  «class» : Option String
deriving DecidableEq, Repr

/-- Rust `swayipc::Node`, restricted to the fields the code reads:
`name`, `node_type`, `app_id`, `window_properties`, `nodes`,
`floating_nodes`. -/
inductive Node where
  | mk (name : Option String) (node_type : NodeType) (app_id : Option String)
       (window_properties : Option WindowProperties)
       (nodes : List Node) (floating_nodes : List Node)
deriving Repr

def Node.name : Node → Option String
  | .mk n _ _ _ _ _ => n

def Node.node_type : Node → NodeType
  | .mk _ t _ _ _ _ => t

def Node.app_id : Node → Option String
  | .mk _ _ a _ _ _ => a

def Node.window_properties : Node → Option WindowProperties
  | .mk _ _ _ w _ _ => w

def Node.nodes : Node → List Node
  | .mk _ _ _ _ ns _ => ns

def Node.floating_nodes : Node → List Node
  | .mk _ _ _ _ _ fs => fs

/-- Rust `NodeExt::is_workspace`: a workspace node that is not the reserved
`__i3_scratch` scratchpad workspace. -/
def Node.is_workspace (n : Node) : Bool :=
  !(n.name == some "__i3_scratch") && (n.node_type == NodeType.workspace)

/-- Rust `NodeExt::is_window`: `matches!(node_type, Con | FloatingCon)`. -/
def Node.is_window (n : Node) : Bool :=
  match n.node_type with
  | NodeType.con | NodeType.floatingCon => true
  | _ => false

/-- Rust `NodeExt::window_properties_class`. -/
def Node.window_properties_class (n : Node) : Option String :=
  n.window_properties.bind (fun prop => prop.«class»)

/-! ### `Window` -/

/-- The `Window` struct of `window_manager.rs`. -/
structure Window where
  name : Option String
  app_id : Option String
  window_properties_class : Option String
deriving DecidableEq, Repr

/-- Rust `Window::from_node`. -/
def Window.from_node (node : Node) : Option Window :=
  if node.is_window then
    let name := node.name
    let app_id := node.app_id
    let window_properties_class := node.window_properties_class
    if name.isSome || app_id.isSome || window_properties_class.isSome then
      some { name := name, app_id := app_id,
             window_properties_class := window_properties_class }
    else
      none
  else
    none

/-- Rust `Window::exists`. -/
def Window.exists (w : Window) : Bool :=
  w.name.isSome || w.app_id.isSome || w.window_properties_class.isSome

/-- Model of Rust's `str::to_lowercase` (per-character lowercase
conversion; ASCII fragment, via `Char.toLower`). -/
def str_to_lowercase (s : String) : String :=
  ⟨s.data.map Char.toLower⟩

/-- Model of Rust's `str::contains(pattern)`: the pattern occurs as a
contiguous substring. -/
def str_contains (s pattern : String) : Bool :=
  s.data.tails.any (fun t => pattern.data.isPrefixOf t)

/-- Rust `Window::matches`: the pattern is searched in each lowercased identity
field; the pattern itself is not lowercased. -/
def Window.matches (w : Window) (pattern : String) : Bool :=
  (w.name.map (fun s => str_contains (str_to_lowercase s) pattern)).getD false
  || (w.app_id.map (fun s => str_contains (str_to_lowercase s) pattern)).getD false
  || (w.window_properties_class.map
        (fun s => str_contains (str_to_lowercase s) pattern)).getD false

/-! ### Tree traversal (`NodeExt::windows_in_node`, `workspaces_in_node`) -/

mutual
/-- Rust `NodeExt::windows_in_node`: recursively collect the windows of
`self.nodes.iter().chain(self.floating_nodes.iter())`; for each child,
its recursive windows first, then (if it is a window node) its own
`Window::from_node` value. -/
def Node.windows_in_node : Node → List Window
  | .mk _ _ _ _ nodes floating_nodes =>
    windows_in_node_list nodes ++ windows_in_node_list floating_nodes

/-- The `for node in ...` loop body of `windows_in_node`, over one child
list. -/
def windows_in_node_list : List Node → List Window
  | [] => []
  | node :: rest =>
    node.windows_in_node
      ++ (if node.is_window then
            match Window.from_node node with
            | some w => [w]
            | none => []
          else [])
      ++ windows_in_node_list rest
end

mutual
/-- Rust `NodeExt::workspaces_in_node`: walk `self.nodes`; insert each
workspace child (erroring when its name is absent), and merge the
recursive result of each non-workspace child. -/
def Node.workspaces_in_node : Node → Except String (List (String × List Window))
  | .mk _ _ _ _ nodes _ => workspaces_in_node_list [] nodes

/-- The `for node in &self.nodes` loop of `workspaces_in_node`, with the
`res` accumulator made explicit. -/
def workspaces_in_node_list (acc : List (String × List Window)) :
    List Node → Except String (List (String × List Window))
  | [] => .ok acc
  | node :: rest =>
    if node.is_workspace then
      match node.name with
      | some nm => workspaces_in_node_list (map_insert nm node.windows_in_node acc) rest
      | none => .error "Expected some node name"
    else
      match node.workspaces_in_node with
      | .ok sub => workspaces_in_node_list (insert_all acc sub) rest
      | .error e => .error e
end

/-! ### SwayOrI3 backend adapter -/

/-- The `--sway-or-i3` / `--hyprland` enforcement flag
(`crate::EnforceWindowManager`). -/
inductive EnforceWindowManager
  | swayOrI3
  | hyprland
deriving DecidableEq, Repr

/-- Rust `swayipc::EventType` (the event classes one can subscribe to). -/
inductive EventType
  | workspace
  | output
  | mode
  | window
  | barConfigUpdate
  | binding
  | shutdown
  | tick
  | barStateUpdate
  | input
deriving DecidableEq, Repr

/-- Sub-kinds of a window event (`swayipc::WindowChange`). -/
inductive WindowChange
  | new
  | close
  | focus
  | title
  | fullscreenMode
  | move
  | floating
  | urgent
  | mark
deriving DecidableEq, Repr

/-- Sub-kinds of a workspace event (`swayipc::WorkspaceChange`). -/
inductive WorkspaceChange
  | init
  | empty
  | focus
  | moveWs
  | rename
  | urgentWs
  | reload
deriving DecidableEq, Repr

/-- A delivered `swayipc::Event`. -/
inductive Event
  | workspace (change : WorkspaceChange)
  | window (change : WindowChange)
  | other
deriving DecidableEq, Repr

/-- An IPC connection handle (`swayipc::Connection`); the handle itself is
opaque, only its identity matters to the model. -/
structure Connection where
  id : Nat
deriving DecidableEq, Repr

/-- A subscribed event stream (`swayipc::EventStream`): the connection it
was created from and the event classes passed to `subscribe`. -/
structure EventStream where
  connection : Connection
  subscriptions : List EventType
deriving DecidableEq, Repr

/-- Rust `Connection::subscribe`. -/
def Connection.subscribe (c : Connection) (ts : List EventType) : EventStream :=
  { connection := c, subscriptions := ts }

/-- The `SwayOrI3` backend handle: one connection for queries/commands and
one subscribed event stream. -/
structure SwayOrI3 where
  connection : Connection
  events : EventStream
deriving DecidableEq, Repr

/-- Rust `SwayOrI3::connect`.  The two `Connection::new()` IPC calls are passed
in as `Except` results (`conn1` builds the command connection, `conn2` the
one handed to `subscribe`). -/
def SwayOrI3.connect (enforce : Option EnforceWindowManager)
    (conn1 conn2 : Except String Connection) : Except String SwayOrI3 :=
  match enforce with
  | none | some EnforceWindowManager.swayOrI3 =>
    match conn1 with
    | .error _ => .error "Couldn't connect to WM"
    | .ok c =>
      match conn2 with
      | .error _ => .error "Couldn't connect to WM"
      | .ok c2 =>
        .ok { connection := c, events := c2.subscribe [EventType.window] }
  | some EnforceWindowManager.hyprland =>
    .error "Not connecting to Sway or i3 as we've explicitly been asked not to"

/-- Rust `SwayOrI3::get_windows_in_each_workspace`: run the tree query (passed
in as its `Except` result) and extract the workspace map. -/
def SwayOrI3.get_windows_in_each_workspace (get_tree : Except String Node) :
    Except String (List (String × List Window)) :=
  match get_tree with
  | .error e => .error ("get_tree() failed: " ++ e)
  | .ok tree => tree.workspaces_in_node

/-- Rust `SwayOrI3::wait_for_event`: the match on `self.events.next()`.
`none` models an exhausted stream, `some (.error e)` a failed receive,
`some (.ok ev)` a delivered event. -/
def SwayOrI3.wait_for_event : Option (Except String Event) → Except String Unit
  | some (.error e) => .error ("Failed to receive next event: " ++ e)
  | none => .error "Event stream ended"
  | some (.ok _) => .ok ()

/-- The only "rename needed" signal the supervisor loop can observe from
`wait_for_event`: whether the call returned `Ok(())` (on `Ok` the loop
runs a rename pass; on `Err` it reconnects). -/
def rename_needed (next : Option (Except String Event)) : Bool :=
  match SwayOrI3.wait_for_event next with
  | .ok _ => true
  | .error _ => false

/-! ### Hyprland backend adapter -/

/-- The `workspace` reference inside a `hyprland::data::Client`. -/
structure ClientWorkspaceRef where
  id : Int
deriving DecidableEq, Repr

/-- A `hyprland::data::Client`, restricted to the fields the code reads:
`workspace.id`, `at` (x, y position in pixels), `title`, `class`. -/
structure Client where
  workspace : ClientWorkspaceRef
  «at» : Int × Int
  title : String
  «class» : String
deriving DecidableEq, Repr

/-- A `hyprland::data::Workspace`, restricted to the fields the code
reads: `id` and the `windows` count. -/
structure HyprWorkspace where
  id : Int
  windows : Nat
deriving DecidableEq, Repr

/-- The `Window` literal built for one client in
`Hyprland::get_windows_in_each_workspace` (empty `title`/`class` strings
become `None`, `app_id` is always `None`). -/
def client_window (c : Client) : Window :=
  { name := if c.title == "" then none else some c.title
    app_id := none
    window_properties_class := if c.«class» == "" then none else some c.«class» }

/-- The sort key the code attaches to each client:
`(client.at.1 /* y */, client.at.0 /* x */)`. -/
def client_pos (c : Client) : Int × Int :=
  (c.«at».2, c.«at».1)

/-- The ordering `|(l, _), (r, _)| l.cmp(r)` used by `v.sort_by`:
lexicographic on the `(y, x)` key, ignoring the window payload. -/
def pos_le (a b : (Int × Int) × Window) : Prop :=
  a.1.1 < b.1.1 ∨ (a.1.1 = b.1.1 ∧ a.1.2 ≤ b.1.2)

instance : DecidableRel pos_le := fun a b => by
  unfold pos_le; exact inferInstance

instance : IsTotal ((Int × Int) × Window) pos_le :=
  ⟨by intro a b; unfold pos_le; omega⟩

instance : IsTrans ((Int × Int) × Window) pos_le :=
  ⟨by intro a b c; unfold pos_le; omega⟩

/-- Helper for `dedup_keys`: keep the keys not seen before. -/
def dedup_keys_aux (seen : List Int) : List Int → List Int
  | [] => []
  | k :: rest =>
    if k ∈ seen then dedup_keys_aux seen rest
    else k :: dedup_keys_aux (k :: seen) rest

/-- Rust `itertools::into_group_map` key order: the distinct keys, here in
order of first appearance (the Rust `HashMap` iteration order is
arbitrary; any order yields the same final `BTreeMap`). -/
def dedup_keys (l : List Int) : List Int :=
  dedup_keys_aux [] l

/-- The group `into_group_map` builds for one workspace id: the
`((y, x), Window)` payloads of this workspace's clients, in encounter
order. -/
def group_for (clients : List Client) (k : Int) : List ((Int × Int) × Window) :=
  (clients.filter (fun c => c.workspace.id == k)).map
    (fun c => (client_pos c, client_window c))

/-- One entry of the grouped-and-sorted part of
`Hyprland::get_windows_in_each_workspace`: sort the group by position
(stable sort, modelled by `List.insertionSort`), then drop the positions
and keep only windows that `exists`. -/
def hypr_workspace_entry (clients : List Client) (k : Int) : String × List Window :=
  (toString k,
   ((List.insertionSort pos_le (group_for clients k)).map Prod.snd).filter
     Window.exists)

/-- The grouped part of `Hyprland::get_windows_in_each_workspace` (the
`into_group_map().into_iter().map(...)` pipeline). -/
def hypr_grouped_entries (clients : List Client) : List (String × List Window) :=
  (dedup_keys (clients.map (fun c => c.workspace.id))).map
    (hypr_workspace_entry clients)

/-- The `empty_workspaces` iterator: every workspace the backend reports
with zero windows, keyed by its formatted id, with an empty window
list. -/
def empty_workspaces (workspaces : List HyprWorkspace) : List (String × List Window) :=
  workspaces.filterMap (fun w =>
    if w.windows == 0 then some (toString w.id, ([] : List Window)) else none)

/-- Rust `Hyprland::get_windows_in_each_workspace` on successful snapshots:
grouped entries chained with the empty workspaces, collected into a
`BTreeMap` (later entries overwrite earlier ones with the same key). -/
def Hyprland.get_windows_in_each_workspace (clients : List Client)
    (workspaces : List HyprWorkspace) : List (String × List Window) :=
  insert_all [] (hypr_grouped_entries clients ++ empty_workspaces workspaces)

/-- Rust `Hyprland::get_windows_in_each_workspace` including the two snapshot
IPC calls, passed in as `Except` results (`Workspaces::get()` is consumed
first, matching the evaluation order of the source). -/
def Hyprland.get_windows_in_each_workspace_result
    (clients : Except String (List Client))
    (workspaces : Except String (List HyprWorkspace)) :
    Except String (List (String × List Window)) :=
  match workspaces with
  | .error e => .error ("Failed to get workspaces: " ++ e)
  | .ok ws =>
    match clients with
    | .error e => .error ("Failed to get clients: " ++ e)
    | .ok cs => .ok (Hyprland.get_windows_in_each_workspace cs ws)

/-- Rust `Hyprland::wait_for_event`: `self.rx.recv().context(...)`.  The
`recv` outcome is passed in; a closed channel is the `.error` case. -/
def Hyprland.wait_for_event (recv : Except String Unit) : Except String Unit :=
  match recv with
  | .ok u => .ok u
  | .error e => .error ("Failed to wait for event: " ++ e)

/-! ### Association-map lemmas -/

theorem map_lookup_map_insert {α : Type} (k1 k2 : String) (v : α)
    (m : List (String × α)) :
    map_lookup k1 (map_insert k2 v m) =
      if k1 = k2 then some v else map_lookup k1 m := by
  induction m with
  | nil => simp [map_insert, map_lookup]
  | cons kv rest ih =>
    obtain ⟨k', v'⟩ := kv
    by_cases h1 : k2 < k'
    · rw [map_insert, if_pos h1, map_lookup]
    · by_cases h2 : k2 = k'
      · subst h2
        rw [map_insert, if_neg h1, if_pos rfl]
        by_cases hk : k1 = k2 <;> simp [map_lookup, hk]
      · rw [map_insert, if_neg h1, if_neg h2]
        by_cases hk' : k1 = k'
        · have hk12 : ¬(k1 = k2) := fun h => h2 (h ▸ hk')
          subst hk'
          simp [map_lookup, hk12]
        · rw [map_lookup, if_neg hk', ih]
          by_cases hk12 : k1 = k2 <;> simp [map_lookup, hk12, hk']

theorem mem_map_insert {α : Type} (kv : String × α) (k : String) (v : α)
    (m : List (String × α)) :
    kv ∈ map_insert k v m → kv = (k, v) ∨ kv ∈ m := by
  induction m with
  | nil => intro h; simp [map_insert] at h; exact Or.inl h
  | cons kv' rest ih =>
    obtain ⟨k', v'⟩ := kv'
    rw [map_insert]
    split_ifs with h1 h2
    · intro h
      rcases List.mem_cons.mp h with h | h
      · exact Or.inl h
      · exact Or.inr h
    · intro h
      rcases List.mem_cons.mp h with h | h
      · exact Or.inl h
      · exact Or.inr (List.mem_cons_of_mem _ h)
    · intro h
      rcases List.mem_cons.mp h with h | h
      · exact Or.inr (List.mem_cons.mpr (Or.inl h))
      · rcases ih h with h' | h'
        · exact Or.inl h'
        · exact Or.inr (List.mem_cons_of_mem _ h')

theorem mem_insert_all {α : Type} (kv : String × α)
    (acc entries : List (String × α)) :
    kv ∈ insert_all acc entries → kv ∈ acc ∨ kv ∈ entries := by
  induction entries generalizing acc with
  | nil => intro h; exact Or.inl h
  | cons e rest ih =>
    intro h
    rw [insert_all, List.foldl_cons] at h
    rcases ih (map_insert e.1 e.2 acc) h with h' | h'
    · rcases mem_map_insert kv e.1 e.2 acc h' with h'' | h''
      · right
        rw [h'']
        exact List.mem_cons_self _ _
      · exact Or.inl h''
    · exact Or.inr (List.mem_cons_of_mem _ h')

theorem map_lookup_insert_all_of_no_key {α : Type} (k : String)
    (acc entries : List (String × α)) (h : ∀ kv ∈ entries, kv.1 ≠ k) :
    map_lookup k (insert_all acc entries) = map_lookup k acc := by
  induction entries generalizing acc with
  | nil => rfl
  | cons e rest ih =>
    rw [insert_all, List.foldl_cons]
    have hr : map_lookup k (insert_all (map_insert e.1 e.2 acc) rest) =
        map_lookup k (map_insert e.1 e.2 acc) :=
      ih (map_insert e.1 e.2 acc) (fun kv hkv => h kv (List.mem_cons_of_mem _ hkv))
    rw [insert_all] at hr
    rw [hr, map_lookup_map_insert,
        if_neg (fun hk => h e (List.mem_cons_self _ _) hk.symm)]

theorem map_lookup_insert_all_last {α : Type} (k : String) (v : α)
    (acc entries : List (String × α)) (hmem : (k, v) ∈ entries)
    (hall : ∀ kv ∈ entries, kv.1 = k → kv.2 = v) :
    map_lookup k (insert_all acc entries) = some v := by
  induction entries generalizing acc with
  | nil => cases hmem
  | cons e rest ih =>
    rw [insert_all, List.foldl_cons]
    by_cases hrest : ∀ kv ∈ rest, kv.1 ≠ k
    · have he : e = (k, v) := by
        rcases List.mem_cons.mp hmem with h | h
        · exact h.symm
        · exact absurd rfl (hrest _ h)
      subst he
      have := map_lookup_insert_all_of_no_key k (map_insert k v acc) rest hrest
      rw [insert_all] at this
      rw [this, map_lookup_map_insert, if_pos rfl]
    · push_neg at hrest
      obtain ⟨kv, hkvmem, hkvk⟩ := hrest
      have hkv : kv = (k, v) := by
        have h2 := hall kv (List.mem_cons_of_mem _ hkvmem) hkvk
        calc kv = (kv.1, kv.2) := rfl
          _ = (k, v) := by rw [hkvk, h2]
      have := ih (map_insert e.1 e.2 acc) (hkv ▸ hkvmem)
        (fun kv' hkv' hk => hall kv' (List.mem_cons_of_mem _ hkv') hk)
      rw [insert_all] at this
      exact this

theorem map_lookup_mem {α : Type} (k : String) (m : List (String × α)) (v : α) :
    map_lookup k m = some v → (k, v) ∈ m := by
  induction m with
  | nil => intro h; cases h
  | cons kv rest ih =>
    obtain ⟨k', v'⟩ := kv
    rw [map_lookup]
    split_ifs with h1
    · intro h
      subst h1
      injection h with h
      subst h
      exact List.mem_cons_self _ _
    · intro h
      exact List.mem_cons_of_mem _ (ih h)

theorem map_lookup_eq_none_of_no_key {α : Type} (k : String)
    (m : List (String × α)) (h : ∀ kv ∈ m, kv.1 ≠ k) :
    map_lookup k m = none := by
  induction m with
  | nil => rfl
  | cons kv rest ih =>
    obtain ⟨k', v'⟩ := kv
    rw [map_lookup, if_neg (fun hk => h (k', v') (List.mem_cons_self _ _) hk.symm)]
    exact ih (fun kv' hkv' => h kv' (List.mem_cons_of_mem _ hkv'))

theorem no_key_of_map_lookup_eq_none {α : Type} (k : String)
    (m : List (String × α)) (h : map_lookup k m = none) :
    ∀ kv ∈ m, kv.1 ≠ k := by
  induction m with
  | nil => intro kv hkv; cases hkv
  | cons kv' rest ih =>
    obtain ⟨k', v'⟩ := kv'
    rw [map_lookup] at h
    split_ifs at h with h1
    intro kv hkv
    rcases List.mem_cons.mp hkv with h' | h'
    · subst h'
      exact fun hk => h1 hk.symm
    · exact ih h kv h'

/-! ### Tree-traversal invariants -/

/-- A window value produced by `Window::from_node` always has at least one
populated identity field. -/
theorem from_node_exists (n : Node) (w : Window) (h : Window.from_node n = some w) :
    w.exists = true := by
  simp only [Window.from_node] at h
  by_cases h1 : n.is_window = true
  · rw [if_pos h1] at h
    by_cases h2 : (n.name.isSome || n.app_id.isSome || n.window_properties_class.isSome) = true
    · rw [if_pos h2] at h
      injection h with h
      subst h
      exact h2
    · rw [if_neg h2] at h
      exact Option.noConfusion h
  · rw [if_neg h1] at h
    exact Option.noConfusion h

/-- Every window collected by `windows_in_node` satisfies `exists`. -/
theorem windows_in_node_exists (n : Node) :
    ∀ w ∈ n.windows_in_node, w.exists = true := by
  refine Node.windows_in_node.induct
    (fun n => ∀ w ∈ n.windows_in_node, w.exists = true)
    (fun l => ∀ w ∈ windows_in_node_list l, w.exists = true) ?_ ?_ ?_ n
  · intro nm ty ai wp nodes fls ih1 ih2 w hw
    rw [Node.windows_in_node] at hw
    rcases List.mem_append.mp hw with h | h
    · exact ih1 w h
    · exact ih2 w h
  · intro w hw
    rw [windows_in_node_list] at hw
    cases hw
  · intro node rest ih1 ih2 w hw
    rw [windows_in_node_list] at hw
    rcases List.mem_append.mp hw with h | h
    · rcases List.mem_append.mp h with h' | h'
      · exact ih1 w h'
      · by_cases hwin : node.is_window = true
        · rw [if_pos hwin] at h'
          cases hfn : Window.from_node node with
          | some w' =>
            rw [hfn] at h'
            rcases List.mem_singleton.mp h' with rfl
            exact from_node_exists node w hfn
          | none =>
            rw [hfn] at h'
            cases h'
        · rw [if_neg hwin] at h'
          cases h'
    · exact ih2 w h

/-- From `is_workspace = true` and a present name: the name is not the
scratchpad name. -/
theorem name_ne_scratch_of_is_workspace (n : Node) (nm : String)
    (hw : n.is_workspace = true) (hn : n.name = some nm) :
    nm ≠ "__i3_scratch" := by
  rw [Node.is_workspace, hn] at hw
  intro h
  subst h
  simp at hw

/-- The accumulator-level scratchpad invariant: a successful
`workspaces_in_node_list` run never adds an entry for `__i3_scratch`. -/
theorem workspaces_in_node_scratch (n : Node) :
    ∀ m, n.workspaces_in_node = .ok m → map_lookup "__i3_scratch" m = none := by
  refine Node.workspaces_in_node.induct
    (fun n => ∀ m, n.workspaces_in_node = .ok m →
      map_lookup "__i3_scratch" m = none)
    (fun acc l => ∀ m, workspaces_in_node_list acc l = .ok m →
      map_lookup "__i3_scratch" m = map_lookup "__i3_scratch" acc) ?_ ?_ ?_ ?_ ?_ ?_ n
  · intro nm ty ai wp nodes fls ih m h
    rw [Node.workspaces_in_node] at h
    rw [ih m h]
    rfl
  · intro acc m h
    rw [workspaces_in_node_list] at h
    injection h with h
    subst h
    rfl
  · intro acc node rest hw nm hn ih m h
    rw [workspaces_in_node_list, if_pos hw, hn] at h
    rw [ih m h, map_lookup_map_insert,
        if_neg (fun he => name_ne_scratch_of_is_workspace node nm hw hn he.symm)]
  · intro acc node rest hw hn m h
    rw [workspaces_in_node_list, if_pos hw, hn] at h
    exact Except.noConfusion h
  · intro acc node rest hw sub hsub ih1 ih2 m h
    rw [workspaces_in_node_list, if_neg hw, hsub] at h
    rw [ih2 m h]
    exact map_lookup_insert_all_of_no_key _ _ _
      (no_key_of_map_lookup_eq_none _ _ (ih1 sub hsub))
  · intro acc node rest hw e hsub ih1 m h
    rw [workspaces_in_node_list, if_neg hw, hsub] at h
    exact Except.noConfusion h

/-- The claim's premise, restricted to what the `workspaces_in_node`
traversal actually visits: among this child list, a workspace child with
an absent name, or (recursively) one inside the `nodes` children of a
non-workspace child. -/
def reaches_nameless_workspace : List Node → Bool
  | [] => false
  | (Node.mk nm ty ai wp nodes fls) :: rest =>
    (if (Node.mk nm ty ai wp nodes fls).is_workspace then nm.isNone
     else reaches_nameless_workspace nodes)
    || reaches_nameless_workspace rest

/-- Any node anywhere in a child list (including floating children and
workspace subtrees) that is a workspace node with an absent name.  This is
the literal premise of the fail-fast claim. -/
def contains_nameless_workspace : List Node → Bool
  | [] => false
  | (Node.mk nm ty ai wp nodes fls) :: rest =>
    ((Node.mk nm ty ai wp nodes fls).node_type == NodeType.workspace && nm.isNone)
    || contains_nameless_workspace nodes
    || contains_nameless_workspace fls
    || contains_nameless_workspace rest

/-- A successful extraction implies that the traversal met no nameless
workspace node. -/
theorem workspaces_ok_not_reaches (n : Node) :
    ∀ m, n.workspaces_in_node = .ok m →
      reaches_nameless_workspace n.nodes = false := by
  refine Node.workspaces_in_node.induct
    (fun n => ∀ m, n.workspaces_in_node = .ok m →
      reaches_nameless_workspace n.nodes = false)
    (fun acc l => ∀ m, workspaces_in_node_list acc l = .ok m →
      reaches_nameless_workspace l = false) ?_ ?_ ?_ ?_ ?_ ?_ n
  · intro nm ty ai wp nodes fls ih m h
    rw [Node.workspaces_in_node] at h
    exact ih m h
  · intro acc m h
    rw [reaches_nameless_workspace]
  · intro acc node rest hw nm hn ih m h
    rw [workspaces_in_node_list, if_pos hw, hn] at h
    obtain ⟨nm', ty, ai, wp, nodes, fls⟩ := node
    rw [reaches_nameless_workspace, if_pos hw, ih m h]
    have hnm : nm' = some nm := hn
    rw [hnm]
    rfl
  · intro acc node rest hw hn m h
    rw [workspaces_in_node_list, if_pos hw, hn] at h
    exact Except.noConfusion h
  · intro acc node rest hw sub hsub ih1 ih2 m h
    rw [workspaces_in_node_list, if_neg hw, hsub] at h
    obtain ⟨nm', ty, ai, wp, nodes, fls⟩ := node
    rw [reaches_nameless_workspace, if_neg hw, ih2 m h]
    have hsubn : reaches_nameless_workspace nodes = false := ih1 sub hsub
    rw [hsubn]
    rfl
  · intro acc node rest hw e hsub ih1 m h
    rw [workspaces_in_node_list, if_neg hw, hsub] at h
    exact Except.noConfusion h

/-- The per-workspace window lists in a successful extraction contain only
windows with at least one populated identity field. -/
theorem workspaces_in_node_windows_exist (n : Node) :
    ∀ m, n.workspaces_in_node = .ok m →
      ∀ kv ∈ m, ∀ w ∈ kv.2, w.exists = true := by
  refine Node.workspaces_in_node.induct
    (fun n => ∀ m, n.workspaces_in_node = .ok m →
      ∀ kv ∈ m, ∀ w ∈ kv.2, w.exists = true)
    (fun acc l => ∀ m, workspaces_in_node_list acc l = .ok m →
      (∀ kv ∈ acc, ∀ w ∈ kv.2, w.exists = true) →
      ∀ kv ∈ m, ∀ w ∈ kv.2, w.exists = true) ?_ ?_ ?_ ?_ ?_ ?_ n
  · intro nm ty ai wp nodes fls ih m h
    rw [Node.workspaces_in_node] at h
    exact ih m h (fun kv hkv => absurd hkv (List.not_mem_nil kv))
  · intro acc m h hacc
    rw [workspaces_in_node_list] at h
    injection h with h
    subst h
    exact hacc
  · intro acc node rest hw nm hn ih m h hacc
    rw [workspaces_in_node_list, if_pos hw, hn] at h
    refine ih m h ?_
    intro kv hkv w hwmem
    rcases mem_map_insert kv nm node.windows_in_node acc hkv with h' | h'
    · subst h'
      exact windows_in_node_exists node w hwmem
    · exact hacc kv h' w hwmem
  · intro acc node rest hw hn m h
    rw [workspaces_in_node_list, if_pos hw, hn] at h
    exact Except.noConfusion h
  · intro acc node rest hw sub hsub ih1 ih2 m h hacc
    rw [workspaces_in_node_list, if_neg hw, hsub] at h
    refine ih2 m h ?_
    intro kv hkv w hwmem
    rcases mem_insert_all kv acc sub hkv with h' | h'
    · exact hacc kv h' w hwmem
    · exact ih1 sub hsub kv h' w hwmem
  · intro acc node rest hw e hsub ih1 m h
    rw [workspaces_in_node_list, if_neg hw, hsub] at h
    exact Except.noConfusion h

/-! ### Hyprland pipeline lemmas -/

theorem insert_all_append {α : Type} (acc l1 l2 : List (String × α)) :
    insert_all acc (l1 ++ l2) = insert_all (insert_all acc l1) l2 := by
  rw [insert_all, insert_all, insert_all, List.foldl_append]

/-- Every entry of the Hyprland map comes from the grouped part or from
the empty-workspaces part. -/
theorem mem_hypr_result (kv : String × List Window) (clients : List Client)
    (workspaces : List HyprWorkspace)
    (h : kv ∈ Hyprland.get_windows_in_each_workspace clients workspaces) :
    kv ∈ hypr_grouped_entries clients ∨ kv ∈ empty_workspaces workspaces := by
  rw [Hyprland.get_windows_in_each_workspace] at h
  rcases mem_insert_all kv [] _ h with h' | h'
  · cases h'
  · exact List.mem_append.mp h'

/-- Every window of a grouped entry is some client's window value: it
satisfies `exists` (the pipeline filters on it) and its `app_id` is `none`
(the code never populates it). -/
theorem hypr_entry_windows (clients : List Client) (k : Int) (w : Window)
    (h : w ∈ (hypr_workspace_entry clients k).2) :
    w.exists = true ∧ w.app_id = none := by
  rw [hypr_workspace_entry] at h
  have hfil := List.mem_filter.mp h
  refine ⟨hfil.2, ?_⟩
  obtain ⟨pair, hpair, hsnd⟩ := List.mem_map.mp hfil.1
  have hmem : pair ∈ group_for clients k :=
    (List.perm_insertionSort pos_le (group_for clients k)).mem_iff.mp hpair
  rw [group_for] at hmem
  obtain ⟨c, _, hc⟩ := List.mem_map.mp hmem
  rw [← hsnd, ← hc]
  rfl

/-- Entries of the `empty_workspaces` iterator always carry an empty
window list. -/
theorem empty_workspaces_value (kv : String × List Window)
    (workspaces : List HyprWorkspace) (h : kv ∈ empty_workspaces workspaces) :
    kv.2 = [] := by
  rw [empty_workspaces] at h
  obtain ⟨ws, _, hws⟩ := List.mem_filterMap.mp h
  by_cases h0 : (ws.windows == 0) = true
  · rw [if_pos h0] at hws
    injection hws with hws
    rw [← hws]
  · rw [if_neg h0] at hws
    exact Option.noConfusion hws

/-- Windows found through a lookup in the Hyprland map satisfy `exists`
and have no `app_id`. -/
theorem hypr_lookup_windows (clients : List Client)
    (workspaces : List HyprWorkspace) (k : String) (ws : List Window)
    (w : Window)
    (hlk : map_lookup k (Hyprland.get_windows_in_each_workspace clients workspaces)
      = some ws) (hw : w ∈ ws) :
    w.exists = true ∧ w.app_id = none := by
  have hkv := map_lookup_mem k _ ws hlk
  rcases mem_hypr_result (k, ws) clients workspaces hkv with h | h
  · rw [hypr_grouped_entries] at h
    obtain ⟨k', _, hk'⟩ := List.mem_map.mp h
    have : w ∈ (hypr_workspace_entry clients k').2 := by
      rw [hk']
      exact hw
    exact hypr_entry_windows clients k' w this
  · have := empty_workspaces_value (k, ws) workspaces h
    simp only at this
    rw [this] at hw
    cases hw

/-! ### String lemmas -/

theorem mem_of_isPrefixOf {p t : List Char} (h : p.isPrefixOf t = true) :
    ∀ c ∈ p, c ∈ t := by
  induction p generalizing t with
  | nil => intro c hc; cases hc
  | cons a as ih =>
    cases t with
    | nil => cases h
    | cons b bs =>
      rw [List.isPrefixOf, Bool.and_eq_true] at h
      intro c hc
      rcases List.mem_cons.mp hc with h' | h'
      · have hcb : c = b := by
          rw [h']
          simpa using h.1
        rw [hcb]
        exact List.mem_cons_self _ _
      · exact List.mem_cons_of_mem _ (ih h.2 c h')

theorem mem_of_mem_tails {l t : List Char} (h : t ∈ l.tails) :
    ∀ c ∈ t, c ∈ l := by
  obtain ⟨pre, hpre⟩ := (List.mem_tails t l).mp h
  intro c hc
  rw [← hpre]
  exact List.mem_append.mpr (Or.inr hc)

/-- If the pattern occurs as a substring, every pattern character occurs
in the searched string. -/
theorem str_contains_subset (s pattern : String)
    (h : str_contains s pattern = true) :
    ∀ c ∈ pattern.data, c ∈ s.data := by
  rw [str_contains, List.any_eq_true] at h
  obtain ⟨t, ht, hp⟩ := h
  intro c hc
  exact mem_of_mem_tails ht c (mem_of_isPrefixOf hp c hc)

/-- The per-character lowercase conversion never yields an uppercase
character. -/
theorem toLower_not_upper (c : Char) : (Char.toLower c).isUpper = false := by
  unfold Char.toLower
  by_cases h : c.toNat ≥ 65 ∧ c.toNat ≤ 90
  · obtain ⟨h1, h2⟩ := h
    rw [if_pos ⟨h1, h2⟩]
    revert h1 h2
    generalize c.toNat = n
    intro h1 h2
    interval_cases n <;> decide
  · simp only [h, if_false]
    unfold Char.isUpper
    simp only [Bool.and_eq_false_iff, decide_eq_false_iff_not, not_le]
    unfold Char.toNat at h
    rcases not_and_or.mp h with h' | h'
    · left
      push_neg at h'
      show (65 : UInt32).toNat ≤ c.val.toNat → False
      intro hc
      exact absurd hc (by simpa using Nat.not_le.mpr h')
    · right
      push_neg at h'
      show c.val.toNat ≤ (90 : UInt32).toNat → False
      intro hc
      exact absurd hc (by simpa using Nat.not_le.mpr h')

/-- No character of a lowercased string is uppercase. -/
theorem str_to_lowercase_no_upper (s : String) :
    ∀ c ∈ (str_to_lowercase s).data, c.isUpper = false := by
  intro c hc
  rw [str_to_lowercase] at hc
  obtain ⟨c', _, hc'⟩ := List.mem_map.mp hc
  rw [← hc']
  exact toLower_not_upper c'

/-- A pattern containing an uppercase character is never found inside a
lowercased string. -/
theorem contains_lower_false (s pattern : String) (c : Char)
    (hc : c ∈ pattern.data) (hup : c.isUpper = true) :
    str_contains (str_to_lowercase s) pattern = false := by
  by_contra h
  have h' : str_contains (str_to_lowercase s) pattern = true := by
    cases hb : str_contains (str_to_lowercase s) pattern
    · exact absurd hb h
    · rfl
  have := str_contains_subset _ _ h' c hc
  rw [str_to_lowercase_no_upper s c this] at hup
  cases hup

/-- Every error `workspaces_in_node` can produce carries the single
"Expected some node name" message of the absent-name check. -/
theorem workspaces_error_msg (n : Node) :
    ∀ e, n.workspaces_in_node = .error e → e = "Expected some node name" := by
  refine Node.workspaces_in_node.induct
    (fun n => ∀ e, n.workspaces_in_node = .error e → e = "Expected some node name")
    (fun acc l => ∀ e, workspaces_in_node_list acc l = .error e →
      e = "Expected some node name") ?_ ?_ ?_ ?_ ?_ ?_ n
  · intro nm ty ai wp nodes fls ih e h
    rw [Node.workspaces_in_node] at h
    exact ih e h
  · intro acc e h
    rw [workspaces_in_node_list] at h
    exact Except.noConfusion h
  · intro acc node rest hw nm hn ih e h
    rw [workspaces_in_node_list, if_pos hw, hn] at h
    exact ih e h
  · intro acc node rest hw hn e h
    rw [workspaces_in_node_list, if_pos hw, hn] at h
    injection h with h
    exact h.symm
  · intro acc node rest hw sub hsub ih1 ih2 e h
    rw [workspaces_in_node_list, if_neg hw, hsub] at h
    exact ih2 e h
  · intro acc node rest hw e' hsub ih1 e h
    rw [workspaces_in_node_list, if_neg hw, hsub] at h
    injection h with h
    rw [← h]
    exact ih1 e' hsub

/-! ### Concrete fixtures for witnesses and counterexamples -/

/-- A terminal window node. -/
def term_node : Node := Node.mk (some "term") NodeType.con none none [] []

/-- A regular workspace node named `1` holding one window. -/
def workspace_one : Node := Node.mk (some "1") NodeType.workspace none none [term_node] []

/-- A workspace node carrying the reserved scratchpad name. -/
def scratch_node : Node :=
  Node.mk (some "__i3_scratch") NodeType.workspace none none [] []

/-- A tree holding a normal workspace and the scratchpad workspace. -/
def tree_with_scratch : Node :=
  Node.mk none NodeType.root none none [workspace_one, scratch_node] []

/-- A workspace node whose `name` field is absent. -/
def nameless_workspace : Node := Node.mk none NodeType.workspace none none [] []

/-- A named workspace whose subtree hides a nameless workspace node. -/
def workspace_wrapping_nameless : Node :=
  Node.mk (some "A") NodeType.workspace none none [nameless_workspace] []

/-- A tree whose only nameless workspace node sits inside another
workspace's subtree, where the traversal never inspects it. -/
def tree_with_hidden_nameless : Node :=
  Node.mk none NodeType.root none none [workspace_wrapping_nameless] []

/-- A tree with a nameless workspace node directly among the root's
children, where the traversal does inspect it. -/
def tree_with_reachable_nameless : Node :=
  Node.mk none NodeType.root none none [nameless_workspace] []

/-- One Hyprland client on workspace 1 with a title and no class. -/
def client_x : Client := ⟨⟨1⟩, (0, 0), "x", ""⟩

/-- Two Hyprland clients on workspace 1: `a` lower on screen (y = 10)
listed before `b` higher on screen (y = 2). -/
def clients_unsorted : List Client :=
  [⟨⟨1⟩, (5, 10), "a", ""⟩, ⟨⟨1⟩, (3, 2), "b", ""⟩]

/-! ### Claims -/

/-- C1: for every input tree, a successful `workspaces_in_node` extraction
returns a map with no entry for the reserved scratchpad workspace name
`__i3_scratch`, even when the tree contains a workspace node with that
name: `is_workspace` rejects that node, so its name is never inserted as a
key. -/
theorem c1_scratchpad_never_in_map (n : Node) (m : List (String × List Window))
    (h : n.workspaces_in_node = Except.ok m) :
    map_lookup "__i3_scratch" m = none :=
  workspaces_in_node_scratch n m h

/-- C1 witness: a concrete tree that does contain a `__i3_scratch`
workspace node extracts successfully to a map without a scratchpad
entry. -/
theorem c1_scratchpad_never_in_map_witness :
    scratch_node.name = some "__i3_scratch" ∧
    scratch_node.node_type = NodeType.workspace ∧
    scratch_node ∈ tree_with_scratch.nodes ∧
    map_lookup "__i3_scratch" [("1", [Window.mk (some "term") none none])] = none :=
  ⟨rfl, rfl, by simp [tree_with_scratch, Node.nodes],
   c1_scratchpad_never_in_map tree_with_scratch _
     (by simp [tree_with_scratch, workspace_one, scratch_node, term_node,
       Node.workspaces_in_node, workspaces_in_node_list, Node.is_workspace,
       Node.name, Node.node_type, Node.nodes, Node.windows_in_node,
       windows_in_node_list, Node.is_window, Window.from_node, Node.app_id,
       Node.window_properties_class, Node.window_properties, map_insert,
       insert_all])⟩

/-- C2 counterexample: the claim says a window `focus` notification never
leads to a rename pass; but `wait_for_event` returns `Ok(())` for every
delivered event — its `Result<()>` carries no sub-kind information — so a
delivered focus event is reported exactly like a `new` event and the
supervisor runs a rename pass. -/
theorem c2_counterexample :
    rename_needed (some (Except.ok (Event.window WindowChange.focus))) = true := rfl

/-- C2 as amended: `wait_for_event` performs no sub-kind classification at
all; every successfully delivered event — `new`, `focus`, or any other —
is reported as "rename needed" (`Ok(())`); only a receive error or an
exhausted stream avoids the pass. -/
theorem c2_no_subkind_filtering (e : Event) :
    SwayOrI3.wait_for_event (some (Except.ok e)) = Except.ok () ∧
    rename_needed (some (Except.ok e)) = true :=
  ⟨rfl, rfl⟩

/-- C3 counterexample: a tree containing a workspace node with an absent
name for which extraction nevertheless succeeds and returns a map: the
nameless workspace sits inside another workspace's subtree, which the
traversal scans only with `windows_in_node`, never checking names. -/
theorem c3_counterexample :
    contains_nameless_workspace tree_with_hidden_nameless.nodes = true ∧
    tree_with_hidden_nameless.workspaces_in_node = Except.ok [("A", [])] :=
  ⟨by simp [tree_with_hidden_nameless, workspace_wrapping_nameless,
     nameless_workspace, contains_nameless_workspace, Node.node_type, Node.nodes],
   by simp [tree_with_hidden_nameless, workspace_wrapping_nameless,
     nameless_workspace, Node.workspaces_in_node, workspaces_in_node_list,
     Node.is_workspace, Node.name, Node.node_type, Node.nodes,
     Node.windows_in_node, windows_in_node_list, Node.is_window,
     Window.from_node, map_insert, insert_all]⟩

/-- C3 as amended: whenever the traversal actually reaches a workspace
node with an absent name (a nameless workspace among the `nodes` children
of the root or of any non-workspace container reached through `nodes`
fields), the whole call fails with the "Expected some node name" error and
no map is produced; a nameless workspace hidden inside another workspace's
subtree or among floating children is never visited. -/
theorem c3_reachable_nameless_fails (n : Node)
    (h : reaches_nameless_workspace n.nodes = true) :
    n.workspaces_in_node = Except.error "Expected some node name" := by
  cases hr : n.workspaces_in_node with
  | error e => rw [workspaces_error_msg n e hr]
  | ok m =>
    rw [workspaces_ok_not_reaches n m hr] at h
    cases h

/-- C3 witness: a tree with a nameless workspace among the root's children
makes the whole extraction fail. -/
theorem c3_reachable_nameless_fails_witness :
    tree_with_reachable_nameless.workspaces_in_node =
      Except.error "Expected some node name" :=
  c3_reachable_nameless_fails tree_with_reachable_nameless
    (by simp [tree_with_reachable_nameless, nameless_workspace,
      reaches_nameless_workspace, Node.is_workspace, Node.name,
      Node.node_type, Node.nodes])

/-- C4: a node or client with no populated identity field yields no
window: `Window::from_node` returns `None` when title, app id and class
are all absent; the Hyprland window for an all-empty client fails
`exists`; and every window list in either backend's extracted map holds
only windows with `exists = true` (at least one populated field). -/
theorem c4_windows_need_identity :
    (∀ n : Node, n.name = none → n.app_id = none →
      n.window_properties_class = none → Window.from_node n = none) ∧
    (∀ c : Client, c.title = "" → c.«class» = "" →
      (client_window c).exists = false) ∧
    (∀ (n : Node) (m : List (String × List Window)) (k : String)
      (ws : List Window) (w : Window), n.workspaces_in_node = Except.ok m →
      map_lookup k m = some ws → w ∈ ws → w.exists = true) ∧
    (∀ (clients : List Client) (workspaces : List HyprWorkspace) (k : String)
      (ws : List Window) (w : Window),
      map_lookup k (Hyprland.get_windows_in_each_workspace clients workspaces)
        = some ws → w ∈ ws → w.exists = true) := by
  refine ⟨?_, ?_, ?_, ?_⟩
  · intro n h1 h2 h3
    simp [Window.from_node, h1, h2, h3]
  · intro c h1 h2
    simp [client_window, Window.exists, h1, h2]
  · intro n m k ws w hok hlk hw
    exact workspaces_in_node_windows_exist n m hok (k, ws) (map_lookup_mem k m ws hlk) w hw
  · intro clients workspaces k ws w hlk hw
    exact (hypr_lookup_windows clients workspaces k ws w hlk hw).1

/-- C4 witness: an identity-free `Con` node yields no window; an all-empty
client's window fails `exists`; a window looked up in each backend's
concrete extracted map satisfies `exists`. -/
theorem c4_windows_need_identity_witness :
    Window.from_node (Node.mk none NodeType.con none none [] []) = none ∧
    (client_window ⟨⟨1⟩, (0, 0), "", ""⟩).exists = false ∧
    (Window.mk (some "term") none none).exists = true ∧
    (Window.mk (some "x") none none).exists = true :=
  ⟨c4_windows_need_identity.1 (Node.mk none NodeType.con none none [] []) rfl rfl rfl,
   c4_windows_need_identity.2.1 ⟨⟨1⟩, (0, 0), "", ""⟩ rfl rfl,
   c4_windows_need_identity.2.2.1 tree_with_scratch
     [("1", [Window.mk (some "term") none none])] "1"
     [Window.mk (some "term") none none] (Window.mk (some "term") none none)
     (by simp [tree_with_scratch, workspace_one, scratch_node, term_node,
       Node.workspaces_in_node, workspaces_in_node_list, Node.is_workspace,
       Node.name, Node.node_type, Node.nodes, Node.windows_in_node,
       windows_in_node_list, Node.is_window, Window.from_node, Node.app_id,
       Node.window_properties_class, Node.window_properties, map_insert,
       insert_all])
     rfl (by simp),
   c4_windows_need_identity.2.2.2 [client_x] [] "1"
     [Window.mk (some "x") none none] (Window.mk (some "x") none none)
     (by decide) (by simp)⟩

/-- C5: the Hyprland enumerate orders each workspace's windows by
on-screen position, vertical coordinate first (`pos_le` compares the
`(y, x)` keys lexicographically): each grouped entry is the
position-sorted, `exists`-filtered projection of that workspace's client
group, whose keys are exactly `(at.y, at.x)` of the clients. -/
theorem c5_sorted_by_position (clients : List Client) (k : Int) :
    List.Sorted pos_le (List.insertionSort pos_le (group_for clients k)) ∧
    hypr_workspace_entry clients k =
      (toString k,
       ((List.insertionSort pos_le (group_for clients k)).map Prod.snd).filter
         Window.exists) ∧
    group_for clients k =
      (clients.filter (fun c => c.workspace.id == k)).map
        (fun c => ((c.«at».2, c.«at».1), client_window c)) ∧
    hypr_grouped_entries clients =
      (dedup_keys (clients.map (fun c => c.workspace.id))).map
        (hypr_workspace_entry clients) :=
  ⟨List.sorted_insertionSort pos_le _, rfl, rfl, rfl⟩

/-- C6: every workspace the backend reports with zero windows appears in
the Hyprland map with an empty window list: its entry is chained after the
grouped entries and `BTreeMap::collect` lets later entries win. -/
theorem c6_empty_workspaces_included (clients : List Client)
    (workspaces : List HyprWorkspace) (w : HyprWorkspace)
    (hmem : w ∈ workspaces) (h0 : w.windows = 0) :
    map_lookup (toString w.id)
      (Hyprland.get_windows_in_each_workspace clients workspaces) = some [] := by
  rw [Hyprland.get_windows_in_each_workspace, insert_all_append]
  refine map_lookup_insert_all_last _ _ _ _ ?_ ?_
  · rw [empty_workspaces]
    exact List.mem_filterMap.mpr ⟨w, hmem, by rw [if_pos (by simp [h0])]⟩
  · intro kv hkv _
    exact empty_workspaces_value kv workspaces hkv

/-- C6 witness: a zero-window workspace with id 5 appears with an empty
list even when a client populates another workspace. -/
theorem c6_empty_workspaces_included_witness :
    map_lookup (toString (5 : Int))
      (Hyprland.get_windows_in_each_workspace [client_x] [⟨5, 0⟩]) = some [] :=
  c6_empty_workspaces_included [client_x] [⟨5, 0⟩] ⟨5, 0⟩ (by simp) rfl

/-- C7 counterexample: the claim says the subscription covers both the
Window and Workspace event classes; in the code `connect` subscribes with
`[EventType::Window]` only, so the Workspace class is not in the
subscription list of the connected handle. -/
theorem c7_counterexample :
    SwayOrI3.connect none (Except.ok ⟨0⟩) (Except.ok ⟨1⟩) =
      Except.ok ⟨⟨0⟩, Connection.subscribe ⟨1⟩ [EventType.window]⟩ ∧
    EventType.workspace ∉
      (Connection.subscribe ⟨1⟩ [EventType.window]).subscriptions :=
  ⟨rfl, by decide⟩

/-- C7 as amended: `connect` (when not excluded by the enforcement flag)
opens two protocol connections — the first for queries/commands, the
second dedicated to the event subscription — and the subscription covers
exactly the Window event class, not the Workspace class. -/
theorem c7_connect_two_connections_window_only (c1 c2 : Connection) :
    SwayOrI3.connect none (Except.ok c1) (Except.ok c2) =
      Except.ok ⟨c1, c2.subscribe [EventType.window]⟩ ∧
    SwayOrI3.connect (some EnforceWindowManager.swayOrI3) (Except.ok c1)
        (Except.ok c2) =
      Except.ok ⟨c1, c2.subscribe [EventType.window]⟩ ∧
    (c2.subscribe [EventType.window]).subscriptions = [EventType.window] :=
  ⟨rfl, rfl, rfl⟩

/-- C8: `wait_for_event` fails rather than succeeding or blocking when the
event source is exhausted: the SwayOrI3 backend errors when the subscribed
stream ends (`next()` returns `None`), and the Hyprland backend errors
when the channel receive fails because the channel is closed. -/
theorem c8_exhausted_source_errors :
    SwayOrI3.wait_for_event none = Except.error "Event stream ended" ∧
    ∀ msg : String, Hyprland.wait_for_event (Except.error msg) =
      Except.error ("Failed to wait for event: " ++ msg) :=
  ⟨rfl, fun _ => rfl⟩

/-- C9: `matches` holds exactly when the pattern occurs as a substring of
the lowercased title, app id or class; the pattern itself is not
lowercased, so a pattern containing an uppercase character matches no
window (case mapping modelled at the ASCII level). -/
theorem c9_matches_lowercase_substring (w : Window) (pattern : String) :
    (w.matches pattern = true ↔
      ((∃ s, w.name = some s ∧
         str_contains (str_to_lowercase s) pattern = true) ∨
       (∃ s, w.app_id = some s ∧
         str_contains (str_to_lowercase s) pattern = true) ∨
       (∃ s, w.window_properties_class = some s ∧
         str_contains (str_to_lowercase s) pattern = true))) ∧
    ((∃ c ∈ pattern.data, c.isUpper = true) → w.matches pattern = false) := by
  obtain ⟨nm, ai, cl⟩ := w
  constructor
  · cases nm <;> cases ai <;> cases cl <;> simp [Window.matches, or_assoc]
  · rintro ⟨c, hcmem, hup⟩
    have hall : ∀ s, str_contains (str_to_lowercase s) pattern = false :=
      fun s => contains_lower_false s pattern c hcmem hup
    cases nm <;> cases ai <;> cases cl <;> simp [Window.matches, hall]

/-- C9 witness: the pattern `Fire` (uppercase F) does not match a window
titled `Firefox`, while the all-lowercase pattern `fire` does. -/
theorem c9_matches_lowercase_substring_witness :
    (Window.mk (some "Firefox") none none).matches "Fire" = false ∧
    (Window.mk (some "Firefox") none none).matches "fire" = true :=
  ⟨(c9_matches_lowercase_substring (Window.mk (some "Firefox") none none)
      "Fire").2 ⟨'F', by decide, by decide⟩,
   by decide⟩

/-- C10: under the Hyprland backend every extracted window has
`app_id = None`: the code builds windows from the clients snapshot
populating only `name` (from `title`) and `window_properties_class`
(from `class`). -/
theorem c10_hypr_app_id_always_none (clients : List Client)
    (workspaces : List HyprWorkspace) (k : String) (ws : List Window)
    (w : Window)
    (hlk : map_lookup k
      (Hyprland.get_windows_in_each_workspace clients workspaces) = some ws)
    (hw : w ∈ ws) :
    w.app_id = none :=
  (hypr_lookup_windows clients workspaces k ws w hlk hw).2

/-- C10 witness: the window extracted for a concrete client has no
app id. -/
theorem c10_hypr_app_id_always_none_witness :
    (Window.mk (some "x") none none).app_id = none :=
  c10_hypr_app_id_always_none [client_x] [] "1"
    [Window.mk (some "x") none none] (Window.mk (some "x") none none)
    (by decide) (by simp)
